import Mathlib

/-!
Verification of the `materialized` Go package (materialized-path trees).

The path algebra (`path.go`, `node.go`) and the orchestrator operations
(`query.go`) are shallowly embedded here.  Paths and node identifiers are
byte strings in Go; they are modelled as `List Char`.  The database is a
list of node records; GORM query/update semantics (struct-based `Where`
clauses skipping zero values, `Updates` with a struct skipping zero
fields, SQL `LIKE` with `%`/`_` wildcards, transactions as all-or-nothing
state transitions) are modelled explicitly.
-/

deriving instance DecidableEq for Except

namespace Materialized

/-- A node identifier segment (Go `NodeID`), modelled as a character list. -/
abbrev Seg := List Char

/-- A materialized path (Go `Path`), modelled as a character list. -/
abbrev MPath := List Char

/-- Go `PathSeparator = "/"`. -/
def sepChar : Char := '/'

/-- Go `RootPath = Path(PathSeparator)`. -/
def rootPath : MPath := ['/']

/-- Error taxonomy: one constructor per distinct failure the embedded code
can produce (`path.go` errors, orchestrator errors from `query.go`, plus
the slice-bounds panic `Parent` would hit on a separator-free path). -/
inductive Err where
  | invalidNodeID      -- path.go: ErrInvalidNodeID (empty node ID)
  | sepInNodeID        -- path.go: "node ID cannot contain the path separator"
  | noParent           -- path.go: "root node has no parent"
  | panicSliceBound    -- path.go Parent: p[:-1] panics when p has no separator
  | negativeDepth      -- path.go: "depth cannot be negative"
  | depthExceedsPath   -- path.go: "requested depth d is greater than path depth"
  | unauthorized       -- query.go: ErrUnauthorized (record-not-found remap)
  | parentNotFound     -- query.go: "parent node not found" / "new parent node not found"
  | invalidMove        -- query.go: "cannot move a node to its own descendant"
  | hasDescendants     -- query.go: "cannot delete node with descendants"
  | invalidCode        -- query.go: "invalid code" (ULID validation failure)
  deriving DecidableEq, Repr

/-- Go `Path.IsRoot`: `p == RootPath`. -/
def isRoot (p : MPath) : Bool := p == rootPath

/-- Go `Path.Depth`: 0 for root, else `strings.Count(p, "/")`. -/
def depth (p : MPath) : Nat := if isRoot p then 0 else p.count '/'

/-- Go `strings.TrimSuffix(p, "/")`: removes one trailing separator if present. -/
def trimSuffixSep (p : MPath) : MPath :=
  if p.getLast? = some '/' then p.dropLast else p

/-- Go `Path.AppendNode`: rejects empty IDs and IDs containing the
separator, otherwise returns `TrimSuffix(p,"/") + "/" + nodeID`. -/
def appendNode (p : MPath) (nodeID : Seg) : Except Err MPath :=
  if nodeID = [] then .error .invalidNodeID
  else if nodeID.contains '/' then .error .sepInNodeID
  else .ok (trimSuffixSep p ++ '/' :: nodeID)

/-- Splits a character list at its first separator: returns the part
before it and the part after it, or `none` when no separator occurs.
Applied to a reversed path this locates `strings.LastIndex(p, "/")`. -/
def splitFirstSep : List Char → Option (List Char × List Char)
  | [] => none
  | c :: rest =>
    if c = '/' then some ([], rest)
    else (splitFirstSep rest).map (fun pr => (c :: pr.1, pr.2))

/-- Go `Path.Parent`: error for root; for a path whose last separator is at
index 0 returns the root; otherwise returns everything before the last
separator.  A path without any separator makes the Go code slice with
index `-1`, a runtime panic, modelled by `Err.panicSliceBound`. -/
def parent (p : MPath) : Except Err MPath :=
  if isRoot p then .error .noParent
  else
    match splitFirstSep p.reverse with
    | none => .error .panicSliceBound
    | some (_, yrev) =>
      if yrev.reverse = [] then .ok rootPath else .ok yrev.reverse

/-- Go `Path.Contains`: root contains every non-root path, nothing
contains root, otherwise `strings.HasPrefix(sub, p + "/")`. -/
def contains (p sub : MPath) : Bool :=
  if isRoot p then !(isRoot sub)
  else if isRoot sub then false
  else List.isPrefixOf (p ++ ['/']) sub

/-- Go `Path.GetNodeIDs`: empty for root, else
`strings.Split(strings.TrimSuffix(p,"/"), "/")` mapped to NodeIDs. -/
def getNodeIDs (p : MPath) : List Seg :=
  if isRoot p then [] else (trimSuffixSep p).splitOn '/'

/-- Go `NodeIDs.ToPath`: root for the empty list, else
`"/" + strings.Join(ids, "/")`. -/
def toPath (ids : List Seg) : MPath :=
  if ids = [] then rootPath else rootPath ++ List.intercalate ['/'] ids

/-- Go `Path.GetAncestorAtDepth` (depth is a Go `int`, so `Int` here). -/
def getAncestorAtDepth (p : MPath) (d : Int) : Except Err MPath :=
  if d < 0 then .error .negativeDepth
  else if d > (depth p : Int) then .error .depthExceedsPath
  else if d = 0 then .ok rootPath
  else if d = (depth p : Int) then .ok p
  else .ok (toPath ((getNodeIDs p).take d.toNat))

/-- Go `strings.Contains(p, "//")`: true iff two consecutive separators
occur. -/
def hasDoubleSep : List Char → Bool
  | [] => false
  | a :: rest =>
    (match rest with
     | b :: _ => a == '/' && b == '/'
     | [] => false) || hasDoubleSep rest

/-- Go `ValidatePath`: rejects the empty string, a non-root path ending
with the separator, and a path with an empty (doubled-separator) segment. -/
def validatePath (p : MPath) : Bool :=
  if p = [] then false
  else if p = rootPath then true
  else if p.getLast? = some '/' then false
  else if hasDoubleSep p then false
  else true

/-- Go `Path.GetPathPrefix`: the SQL LIKE pattern selecting all strict
descendants — `"%"` for root, else `TrimSuffix(p,"/") + "/" + "%"`. -/
def getPathPrefixPattern (p : MPath) : List Char :=
  if isRoot p then ['%'] else trimSuffixSep p ++ ['/', '%']

/-- All suffixes of a character list, longest first (the list itself down
to the empty suffix). -/
def allSuffixes : List Char → List (List Char)
  | [] => [[]]
  | c :: s => (c :: s) :: allSuffixes s

/-- SQL `LIKE` matching (no escape character): `%` matches any sequence,
`_` matches exactly one character, anything else matches literally.  The
`%` case matches iff the rest of the pattern matches some suffix. -/
def likeMatch : List Char → List Char → Bool
  | [], s => s.isEmpty
  | ch :: ps, s =>
    if ch = '%' then (allSuffixes s).any (fun t => likeMatch ps t)
    else
      match s with
      | [] => false
      | c :: s' => if ch = '_' then likeMatch ps s' else ch == c && likeMatch ps s'

/-! ## Entity model and store (query.go)

The database is a list of `TreeNode` rows for one logical table, in
insertion (primary-key) order.  GORM specifics that matter and are kept:
a struct-based `Where` skips zero-valued fields; `Updates` with a struct
skips zero-valued fields; `First` returns the lowest-id (here: first)
match; a record-not-found on the point lookups is remapped to
`ErrUnauthorized`.  Transactions are all-or-nothing: an operation either
returns the whole new store or an error, in which case the store is
unchanged (the Go code rolls the transaction back on every error path). -/

/-- One row of the tree table (`TreeNode` in query.go, including the
`gorm.Model` columns id/created_at/updated_at/deleted_at). -/
structure TreeNode where
  id : Nat := 0
  createdAt : Int := 0
  updatedAt : Int := 0
  deletedAt : Option Int := none
  code : Seg := []
  parentID : Option Seg := none
  path : MPath := []
  name : String := ""
  tenantID : String := ""
  tenantType : String := ""
  ownerID : String := ""
  ownerType : String := ""
  deriving DecidableEq, Repr

/-- The store: all rows of the configured table. -/
abbrev DB := List TreeNode

/-- `tenantScope`: `db.Where(TenantFields{tenantID, tenantType})` — a
struct-based clause, so a zero-valued (empty) field adds no condition. -/
def tenantMatch (n : TreeNode) (tid tty : String) : Bool :=
  (tid = "" || n.tenantID = tid) && (tty = "" || n.tenantType = tty)

/-- `Where(TreeNode{Path: path})`: struct-based, skipped when zero. -/
def pathFieldCond (p : MPath) (n : TreeNode) : Bool := p = [] || n.path == p

/-- `Where(TreeNode{Code: code})`: struct-based, skipped when zero. -/
def codeFieldCond (c : Seg) (n : TreeNode) : Bool := c = [] || n.code == c

/-- `GetNodeByPath`: first tenant-scoped row with the given path, or
`none` (which the Go code surfaces as `ErrUnauthorized`). -/
def getNodeByPath (db : DB) (p : MPath) (tid tty : String) : Option TreeNode :=
  db.find? (fun n => tenantMatch n tid tty && pathFieldCond p n)

/-- Models oklog/ulid v2 `Parse` (used by `NodeID.Validate`): succeeds
iff the text is exactly 26 bytes and its first byte is at most `'7'`
(`ErrDataSize` / `ErrBigTime` otherwise; characters are not checked by
the non-strict parser). -/
def ulidParseOk (c : Seg) : Bool :=
  c.length = 26 && (match c.head? with | some ch => decide (ch ≤ '7') | none => false)

/-- `GetNodeByCode`: validates the code as a ULID, then does a
tenant-scoped point lookup; record-not-found becomes `unauthorized`. -/
def getNodeByCode (db : DB) (c : Seg) (tid tty : String) : Except Err TreeNode :=
  if !(ulidParseOk c) then .error .invalidCode
  else
    match db.find? (fun n => tenantMatch n tid tty && codeFieldCond c n) with
    | none => .error .unauthorized
    | some n => .ok n

/-- `CreateNodeQuery`: computes the new node value — child path via
`AppendNode`, ParentID nil when the parent path is root, otherwise the
resolved parent's Code (`ParentNotFound` when it does not resolve).  The
freshly generated NodeID (`NewNodeID()` in Go) is passed in. -/
def createNodeQuery (db : DB) (name : String) (parentPath : MPath)
    (tid tty oid oty : String) (newNodeID : Seg) : Except Err TreeNode :=
  match appendNode parentPath newNodeID with
  | .error e => .error e
  | .ok nodePath =>
    match (if isRoot parentPath then Except.ok none
           else match getNodeByPath db parentPath tid tty with
                | none => Except.error Err.parentNotFound
                | some par => Except.ok (some par.code)) with
    | .error e => .error e
    | .ok parentID =>
      .ok { code := newNodeID, name := name, path := nodePath, parentID := parentID,
            tenantID := tid, tenantType := tty, ownerID := oid, ownerType := oty }

/-- `CreateNode`: `CreateNodeQuery` plus the insert, in one transaction. -/
def createNode (db : DB) (name : String) (parentPath : MPath)
    (tid tty oid oty : String) (newNodeID : Seg) : Except Err (TreeNode × DB) :=
  match createNodeQuery db name parentPath tid tty oid oty newNodeID with
  | .error e => .error e
  | .ok node => .ok (node, db ++ [node])

/-- `MoveNode`: looks up the node, resolves the new parent (keeping —
faithfully to the Go `newParentID = newParent.ParentID` — the *new
parent's own* ParentID), rejects a move under a strict descendant,
rewrites `path = nodePath OR path LIKE prefix` rows by
`CONCAT(newPath, SUBSTRING(path, len(nodePath)+1))`, then updates the
moved node's parent_id with a struct-based `Updates` (which skips the
field entirely when the new value is nil).  `moveApplyUpdates` is the
write phase: the bulk path rewrite followed by the parent_id update. -/
def moveRewriteRow (nodePath newPath : MPath) (tid tty : String) (n : TreeNode) :
    TreeNode :=
  if tenantMatch n tid tty &&
      (n.path == nodePath || likeMatch (getPathPrefixPattern nodePath) n.path)
  then { n with path := newPath ++ n.path.drop nodePath.length }
  else n

/-- The second update of `MoveNode`: set the moved row's parent_id (the
struct-based `Updates` skips the column when the value is nil). -/
def moveParentRow (movedCode : Seg) (newParentID : Option Seg) (tid tty : String)
    (n : TreeNode) : TreeNode :=
  if tenantMatch n tid tty && codeFieldCond movedCode n
  then { n with parentID := if newParentID.isSome then newParentID else n.parentID }
  else n

/-- Both `MoveNode` writes, applied to every row. -/
def moveApplyUpdates (db : DB) (nodePath newPath : MPath) (movedCode : Seg)
    (newParentID : Option Seg) (tid tty : String) : DB :=
  (db.map (moveRewriteRow nodePath newPath tid tty)).map
    (moveParentRow movedCode newParentID tid tty)

/-- `MoveNode` continued: the guards, then the two updates. -/
def moveNode (db : DB) (nodePath newParentPath : MPath) (tid tty : String) :
    Except Err DB :=
  match getNodeByPath db nodePath tid tty with
  | none => .error .unauthorized
  | some node =>
    match (if isRoot newParentPath then Except.ok none
           else match getNodeByPath db newParentPath tid tty with
                | none => Except.error Err.parentNotFound
                | some newParent =>
                  if contains nodePath newParentPath then Except.error Err.invalidMove
                  else Except.ok newParent.parentID) with
    | .error e => .error e
    | .ok newParentID =>
      match appendNode newParentPath node.code with
      | .error e => .error e
      | .ok newPath =>
        .ok (moveApplyUpdates db nodePath newPath node.code newParentID tid tty)

/-- The descendant count `DeleteNode` takes:
`path LIKE prefix AND path != nodePath`, tenant-scoped. -/
def strictDescCount (db : DB) (nodePath : MPath) (tid tty : String) : Nat :=
  (db.filter (fun n => tenantMatch n tid tty &&
    likeMatch (getPathPrefixPattern nodePath) n.path && !(n.path == nodePath))).length

/-- `DeleteNode`: verifies the node, counts strict descendants via the
prefix pattern; without cascade a positive count aborts with
`HasDescendants` (rollback — nothing deleted); otherwise deletes the
node, and with cascade also every prefix-matched descendant. -/
def deleteNode (db : DB) (nodePath : MPath) (tid tty : String)
    (deleteDescendants : Bool) : Except Err DB :=
  match getNodeByPath db nodePath tid tty with
  | none => .error .unauthorized
  | some _ =>
    if !deleteDescendants then
      if strictDescCount db nodePath tid tty > 0 then .error .hasDescendants
      else .ok (db.filter (fun n => !(tenantMatch n tid tty && n.path == nodePath)))
    else .ok (db.filter (fun n => !(tenantMatch n tid tty &&
      (n.path == nodePath || likeMatch (getPathPrefixPattern nodePath) n.path))))

/-- The update-map value: the tree table's columns are strings or
integer-like (id, timestamps). -/
inductive Val where
  | s (v : String)
  | i (v : Int)
  deriving DecidableEq, Repr

/-- The keys `UpdateNodeQuery` deletes from the caller's map. -/
def protectedKeys : List String :=
  ["id", "created_at", "updated_at", "deleted_at", "parent_id", "code", "path",
   "tenant_id", "tenant_type"]

/-- Effect of one `column ↦ value` pair of a map-based `Updates` on a row.
A key naming no column of the table would make the store reject the whole
statement (changing nothing); it is modelled as a per-key no-op, which
leaves the same rows with the same field values. -/
def applyUpd (n : TreeNode) (k : String) (v : Val) : TreeNode :=
  if k = "name" then (match v with | .s x => { n with name := x } | _ => n)
  else if k = "owner_id" then (match v with | .s x => { n with ownerID := x } | _ => n)
  else if k = "owner_type" then (match v with | .s x => { n with ownerType := x } | _ => n)
  else if k = "id" then (match v with | .i x => { n with id := x.toNat } | _ => n)
  else if k = "created_at" then (match v with | .i x => { n with createdAt := x } | _ => n)
  else if k = "updated_at" then (match v with | .i x => { n with updatedAt := x } | _ => n)
  else if k = "deleted_at" then (match v with | .i x => { n with deletedAt := some x } | _ => n)
  else if k = "parent_id" then (match v with | .s x => { n with parentID := some x.data } | _ => n)
  else if k = "code" then (match v with | .s x => { n with code := x.data } | _ => n)
  else if k = "path" then (match v with | .s x => { n with path := x.data } | _ => n)
  else if k = "tenant_id" then (match v with | .s x => { n with tenantID := x } | _ => n)
  else if k = "tenant_type" then (match v with | .s x => { n with tenantType := x } | _ => n)
  else n

/-- `UpdateNode` (via `UpdateNodeQuery`): checks the node exists in the
tenant, strips the protected keys from the map, then applies the
remaining column assignments to every tenant-scoped row with the code. -/
def updateNode (db : DB) (c : Seg) (tid tty : String)
    (updates : List (String × Val)) : Except Err DB :=
  match getNodeByCode db c tid tty with
  | .error e => .error e
  | .ok _ =>
    .ok (db.map (fun n =>
      if tenantMatch n tid tty && codeFieldCond c n
      then (updates.filter (fun kv => !(protectedKeys.contains kv.1))).foldl
             (fun m kv => applyUpd m kv.1 kv.2) n
      else n))

/-- One entry of `BatchCreateNodes`' input list. -/
structure BatchItem where
  name : String := ""
  parentPath : MPath := []
  ownerID : String := ""
  ownerType : String := ""
  deriving DecidableEq, Repr

/-- The non-root parent paths collected from the batch (the Go code also
de-duplicates them, which does not change the `IN (...)` filter below). -/
def nonRootParentPaths (items : List BatchItem) : List MPath :=
  items.filterMap (fun it => if isRoot it.parentPath then none else some it.parentPath)

/-- The single batched read: `path IN (uniqueParentPaths)`, tenant-scoped. -/
def batchParents (db : DB) (items : List BatchItem) (tid tty : String) : List TreeNode :=
  db.filter (fun n => tenantMatch n tid tty && (nonRootParentPaths items).contains n.path)

/-- The `parentPathMap` lookup: the map is written in order over the
fetched rows, so on duplicate paths the last write wins. -/
def parentMapLookup (parents : List TreeNode) (p : MPath) : Option Seg :=
  (parents.reverse.find? (fun n => n.path == p)).map (fun n => n.code)

/-- The node-building loop of `BatchCreateNodes`: for each entry, a
non-root parent must be in the map (`ParentNotFound` aborts the whole
batch), the fresh NodeID at the entry's position is appended to the
parent path, and the row is assembled. -/
def buildBatch (parents : List TreeNode) (tid tty : String) (ids : Nat → Seg) :
    List BatchItem → Nat → Except Err (List TreeNode)
  | [], _ => .ok []
  | it :: rest, i =>
    match (if isRoot it.parentPath then Except.ok none
           else match parentMapLookup parents it.parentPath with
                | none => Except.error Err.parentNotFound
                | some c => Except.ok (some c)) with
    | .error e => .error e
    | .ok parentID =>
      match appendNode it.parentPath (ids i) with
      | .error e => .error e
      | .ok nodePath =>
        match buildBatch parents tid tty ids rest (i + 1) with
        | .error e => .error e
        | .ok tail =>
          .ok ({ code := ids i, path := nodePath, name := it.name, parentID := parentID,
                 tenantID := tid, tenantType := tty,
                 ownerID := it.ownerID, ownerType := it.ownerType } :: tail)

/-- `BatchCreateNodes`: one batched parent read, the building loop, then
one bulk insert — all inside a single transaction, so an error retains
no partial insert.  `ids` supplies the `NewNodeID()` results. -/
def batchCreateNodes (db : DB) (items : List BatchItem) (tid tty : String)
    (ids : Nat → Seg) : Except Err DB :=
  match buildBatch (batchParents db items tid tty) tid tty ids items 0 with
  | .error e => .error e
  | .ok batch => .ok (db ++ batch)

/-- `GetRootNode` when the root is absent: inserts
`{Path: root, Name: "root", Tenant: ...}` — ParentID nil — and returns it. -/
def getRootNode (db : DB) (tid tty : String) : TreeNode × DB :=
  match db.find? (fun n => tenantMatch n tid tty && pathFieldCond rootPath n) with
  | some n => (n, db)
  | none =>
    let rootNode : TreeNode :=
      { path := rootPath, name := "root", tenantID := tid, tenantType := tty }
    (rootNode, db ++ [rootNode])

/-- The frame `UpdateNode` must preserve: equality of the structural and
timestamp columns (everything the protected keys name). -/
def structuralFieldsEq (a b : TreeNode) : Prop :=
  b.id = a.id ∧ b.createdAt = a.createdAt ∧ b.updatedAt = a.updatedAt ∧
  b.deletedAt = a.deletedAt ∧ b.code = a.code ∧ b.parentID = a.parentID ∧
  b.path = a.path ∧ b.tenantID = a.tenantID ∧ b.tenantType = a.tenantType

/-! ## Concrete scenarios (single tenant `"t"`) used by the theorems -/

/-- The tenant used by all concrete scenarios. -/
def tT : String := "t"

/-- The tenant's root node. -/
def nodeR : TreeNode :=
  { code := ['R'], path := rootPath, name := "root", tenantID := tT, tenantType := tT }

/-- `/a`, a child of root. -/
def nodeA : TreeNode :=
  { code := ['a'], path := ['/', 'a'], parentID := some ['R'],
    tenantID := tT, tenantType := tT }

/-- `/a/c`, a child of `/a`. -/
def nodeC : TreeNode :=
  { code := ['c'], path := ['/', 'a', '/', 'c'], parentID := some ['a'],
    tenantID := tT, tenantType := tT }

/-- A three-node tree: root, `/a`, `/a/c`. -/
def db3 : DB := [nodeR, nodeA, nodeC]

/-- `/p`, a child of root. -/
def nodeP : TreeNode :=
  { code := ['p'], path := ['/', 'p'], parentID := some ['R'],
    tenantID := tT, tenantType := tT }

/-- `/p/q`, a child of `/p`. -/
def nodeQ : TreeNode :=
  { code := ['q'], path := ['/', 'p', '/', 'q'], parentID := some ['p'],
    tenantID := tT, tenantType := tT }

/-- `/m`, a child of root, about to be moved under `/p/q`. -/
def nodeM : TreeNode :=
  { code := ['m'], path := ['/', 'm'], parentID := some ['R'],
    tenantID := tT, tenantType := tT }

/-- The four-node tree for the move scenario. -/
def db4 : DB := [nodeR, nodeP, nodeQ, nodeM]

/-- The node `CreateNode("child", "/")` produces on `[nodeR]` with fresh id `n`. -/
def childUnderRoot : TreeNode :=
  { code := ['n'], parentID := none, path := ['/', 'n'], name := "child",
    tenantID := tT, tenantType := tT, ownerID := "o", ownerType := "u" }

/-- `nodeM` after `MoveNode("/m", "/p/q")`: the code stores the *new
parent's* ParentID (`['p']`, the grandparent's code) in the moved node. -/
def movedM : TreeNode :=
  { code := ['m'], path := ['/', 'p', '/', 'q', '/', 'm'], parentID := some ['p'],
    tenantID := tT, tenantType := tT }

/-- `nodeA` after the undetected self-move `MoveNode("/a", "/a")`. -/
def selfMovedA : TreeNode :=
  { code := ['a'], path := ['/', 'a', '/', 'a'], parentID := some ['R'],
    tenantID := tT, tenantType := tT }

/-- `nodeC` after the undetected self-move `MoveNode("/a", "/a")`. -/
def selfMovedC : TreeNode :=
  { code := ['c'], path := ['/', 'a', '/', 'a', '/', 'c'], parentID := some ['a'],
    tenantID := tT, tenantType := tT }

/-- `/a/n`, the node to move in the subtree-rewrite scenario. -/
def nodeN5 : TreeNode :=
  { code := ['n'], path := ['/', 'a', '/', 'n'], parentID := some ['a'],
    tenantID := tT, tenantType := tT }

/-- `/a/n/x`, a descendant of the moved node. -/
def nodeX5 : TreeNode :=
  { code := ['x'], path := ['/', 'a', '/', 'n', '/', 'x'], parentID := some ['n'],
    tenantID := tT, tenantType := tT }

/-- `/b`, the move target. -/
def nodeB5 : TreeNode :=
  { code := ['b'], path := ['/', 'b'], parentID := some ['R'],
    tenantID := tT, tenantType := tT }

/-- The five-node tree for the subtree-rewrite scenario:
root, `/a`, `/a/n`, `/a/n/x`, `/b`. -/
def db5 : DB := [nodeR, nodeA, nodeN5, nodeX5, nodeB5]

/-- A batch entry under the nonexistent parent path `/z`. -/
def itemZ1 : BatchItem := { name := "z1", parentPath := ['/', 'z'] }

/-- A second batch entry under the same nonexistent parent path. -/
def itemZ2 : BatchItem := { name := "z2", parentPath := ['/', 'z'] }

/-- A 26-character code accepted by the ULID parser (first byte ≤ '7'). -/
def ulidCode : Seg := "01ARZ3NDEKTSV4RRFFQ69G5FAV".data

/-- A node carrying a parseable ULID code, for the update scenario. -/
def nodeU : TreeNode :=
  { code := ulidCode, path := ['/', 'u'], parentID := some ['R'],
    name := "before", tenantID := tT, tenantType := tT, ownerID := "o1" }

/-! ## Helper lemmas -/

theorem isPrefixOfChar_iff (l₁ l₂ : List Char) :
    List.isPrefixOf l₁ l₂ = true ↔ ∃ t, l₁ ++ t = l₂ := by
  induction l₁ generalizing l₂ with
  | nil => simp [List.isPrefixOf]
  | cons a l ih =>
    cases l₂ with
    | nil => simp [List.isPrefixOf]
    | cons b m =>
      simp only [List.isPrefixOf, Bool.and_eq_true, beq_iff_eq, ih, List.cons_append,
        List.cons.injEq]
      aesop

theorem splitFirstSep_append (x y : List Char) (hx : '/' ∉ x) :
    splitFirstSep (x ++ '/' :: y) = some (x, y) := by
  induction x with
  | nil => simp [splitFirstSep]
  | cons a t ih =>
    have ha : ¬ a = '/' := fun h => hx (h ▸ List.mem_cons_self a t)
    have ht : '/' ∉ t := fun h => hx (List.mem_cons_of_mem a h)
    simp [splitFirstSep, ha, ih ht]

theorem splitFirstSep_eq_some (l : List Char) (x y : List Char)
    (h : splitFirstSep l = some (x, y)) : l = x ++ '/' :: y ∧ '/' ∉ x := by
  induction l generalizing x y with
  | nil => simp [splitFirstSep] at h
  | cons a t ih =>
    by_cases ha : a = '/'
    · subst ha
      simp only [splitFirstSep, reduceIte, Option.some.injEq, Prod.mk.injEq] at h
      obtain ⟨hx, hy⟩ := h
      subst hx; subst hy
      exact ⟨rfl, List.not_mem_nil '/'⟩
    · simp only [splitFirstSep, if_neg ha, Option.map_eq_some'] at h
      obtain ⟨⟨x', y'⟩, hs, he⟩ := h
      simp only [Prod.mk.injEq] at he
      obtain ⟨hx1, hy1⟩ := he
      subst hx1; subst hy1
      obtain ⟨hl, hm⟩ := ih x' y' hs
      constructor
      · simp [hl]
      · intro hmem
        rcases List.mem_cons.mp hmem with h1 | h1
        · exact ha h1.symm
        · exact hm h1

theorem splitFirstSep_isSome (l : List Char) (h : '/' ∈ l) :
    ∃ x y, splitFirstSep l = some (x, y) := by
  induction l with
  | nil => cases h
  | cons a t ih =>
    by_cases ha : a = '/'
    · exact ⟨[], t, by simp [splitFirstSep, ha]⟩
    · have ht : '/' ∈ t := by
        rcases List.mem_cons.mp h with h1 | h1
        · exact absurd h1.symm ha
        · exact h1
      obtain ⟨x, y, hxy⟩ := ih ht
      exact ⟨a :: x, y, by simp [splitFirstSep, ha, hxy]⟩

theorem mem_allSuffixes_nil (s : List Char) : [] ∈ allSuffixes s := by
  induction s with
  | nil => simp [allSuffixes]
  | cons c t ih => simp only [allSuffixes, List.mem_cons]; exact Or.inr ih

theorem likeMatch_percent_any (s : List Char) : likeMatch ['%'] s = true := by
  simp only [likeMatch, reduceIte, List.any_eq_true]
  exact ⟨[], mem_allSuffixes_nil s, rfl⟩

theorem likeMatch_prefixPattern (pre : List Char) (h1 : '%' ∉ pre) (h2 : '_' ∉ pre)
    (s : List Char) : likeMatch (pre ++ ['%']) s = true ↔ ∃ t, pre ++ t = s := by
  induction pre generalizing s with
  | nil =>
    simp only [List.nil_append, likeMatch_percent_any, true_iff]
    exact ⟨s, rfl⟩
  | cons c pre ih =>
    have hc1 : ¬ c = '%' := fun h => h1 (h ▸ List.mem_cons_self c pre)
    have hc2 : ¬ c = '_' := fun h => h2 (h ▸ List.mem_cons_self c pre)
    have h1' : '%' ∉ pre := fun h => h1 (List.mem_cons_of_mem c h)
    have h2' : '_' ∉ pre := fun h => h2 (List.mem_cons_of_mem c h)
    cases s with
    | nil =>
      simp only [List.cons_append, likeMatch, if_neg hc1]
      simp
    | cons b s' =>
      simp only [List.cons_append, likeMatch, if_neg hc1, if_neg hc2,
        Bool.and_eq_true, beq_iff_eq, ih h1' h2', List.cons.injEq]
      aesop

theorem isRoot_eq_false_iff (p : MPath) : isRoot p = false ↔ p ≠ rootPath := by
  simp [isRoot]

theorem validatePath_no_trailing_sep (p : MPath) (hv : validatePath p = true)
    (hr : p ≠ rootPath) : p.getLast? ≠ some '/' := by
  intro h
  by_cases h0 : p = []
  · simp [validatePath, h0, rootPath] at hv
  · simp [validatePath, h0, hr, h] at hv

theorem trimSuffixSep_eq_self (p : MPath) (h : p.getLast? ≠ some '/') :
    trimSuffixSep p = p := by
  simp [trimSuffixSep, h]

theorem contains_ne_root (p sub : MPath) (h : contains p sub = true) :
    isRoot sub = false := by
  by_cases hp : isRoot p
  · simp only [contains, if_pos hp, Bool.not_eq_true'] at h
    exact h
  · by_cases hs : isRoot sub
    · simp [contains, hp, hs] at h
    · simpa using hs

theorem prefixPattern_eq (nodePath : MPath) (hv : validatePath nodePath = true)
    (hnr : isRoot nodePath = false) :
    getPathPrefixPattern nodePath = (nodePath ++ ['/']) ++ ['%'] := by
  have hts : trimSuffixSep nodePath = nodePath :=
    trimSuffixSep_eq_self _
      (validatePath_no_trailing_sep _ hv ((isRoot_eq_false_iff _).mp hnr))
  simp [getPathPrefixPattern, hnr, hts, List.append_assoc]

theorem likeMatch_strict_desc (nodePath s : MPath)
    (hv : validatePath nodePath = true) (hnr : isRoot nodePath = false)
    (hw1 : '%' ∉ nodePath) (hw2 : '_' ∉ nodePath) :
    likeMatch (getPathPrefixPattern nodePath) s = true ↔
      ∃ t, nodePath ++ '/' :: t = s := by
  rw [prefixPattern_eq nodePath hv hnr]
  rw [likeMatch_prefixPattern (nodePath ++ ['/'])]
  · constructor
    · rintro ⟨t, ht⟩; exact ⟨t, by simpa [List.append_assoc] using ht⟩
    · rintro ⟨t, ht⟩; exact ⟨t, by simpa [List.append_assoc] using ht⟩
  · intro hx
    rcases List.mem_append.mp hx with h1 | h1
    · exact hw1 h1
    · simp at h1
  · intro hx
    rcases List.mem_append.mp hx with h1 | h1
    · exact hw2 h1
    · simp at h1

theorem moveParentRow_path (mc : Seg) (pid : Option Seg) (tid tty : String)
    (x : TreeNode) : (moveParentRow mc pid tid tty x).path = x.path := by
  unfold moveParentRow
  split <;> rfl

theorem structuralFieldsEq_refl (a : TreeNode) : structuralFieldsEq a a := by
  unfold structuralFieldsEq
  exact ⟨rfl, rfl, rfl, rfl, rfl, rfl, rfl, rfl, rfl⟩

theorem structuralFieldsEq_trans (a b c : TreeNode)
    (h1 : structuralFieldsEq a b) (h2 : structuralFieldsEq b c) :
    structuralFieldsEq a c := by
  unfold structuralFieldsEq at *
  obtain ⟨x1, x2, x3, x4, x5, x6, x7, x8, x9⟩ := h1
  obtain ⟨y1, y2, y3, y4, y5, y6, y7, y8, y9⟩ := h2
  exact ⟨y1.trans x1, y2.trans x2, y3.trans x3, y4.trans x4, y5.trans x5,
    y6.trans x6, y7.trans x7, y8.trans x8, y9.trans x9⟩

theorem applyUpd_preserves (m : TreeNode) (k : String) (v : Val)
    (hk : k ∉ protectedKeys) : structuralFieldsEq m (applyUpd m k v) := by
  simp only [protectedKeys, List.mem_cons, List.not_mem_nil, or_false, not_or] at hk
  obtain ⟨h1, h2, h3, h4, h5, h6, h7, h8, h9⟩ := hk
  by_cases ha : k = "name"
  · subst ha; cases v <;> simp [applyUpd, structuralFieldsEq]
  · by_cases hb : k = "owner_id"
    · subst hb; cases v <;> simp [applyUpd, structuralFieldsEq]
    · by_cases hc : k = "owner_type"
      · subst hc; cases v <;> simp [applyUpd, structuralFieldsEq]
      · simp [applyUpd, ha, hb, hc, h1, h2, h3, h4, h5, h6, h7, h8, h9,
          structuralFieldsEq]

theorem foldl_applyUpd_preserves (l : List (String × Val)) (m : TreeNode)
    (hl : ∀ kv ∈ l, kv.1 ∉ protectedKeys) :
    structuralFieldsEq m (l.foldl (fun a kv => applyUpd a kv.1 kv.2) m) := by
  induction l generalizing m with
  | nil => exact structuralFieldsEq_refl m
  | cons kv rest ih =>
    simp only [List.foldl_cons]
    exact structuralFieldsEq_trans _ _ _
      (applyUpd_preserves m kv.1 kv.2 (hl kv (List.mem_cons_self kv rest)))
      (ih _ (fun x hx => hl x (List.mem_cons_of_mem kv hx)))

/-! ## Claim theorems -/

/-- C8: for every valid path `p` (including root) and every non-empty
segment not containing the separator, `AppendNode` succeeds and `Parent`
of the result is `p` again; `AppendNode` fails exactly when the segment
is empty or contains the separator. -/
theorem appendNode_parent_inverse (p : MPath) (nodeID : Seg) (hp : validatePath p = true) :
    ((∃ e, appendNode p nodeID = Except.error e) ↔ (nodeID = [] ∨ '/' ∈ nodeID)) ∧
    (nodeID ≠ [] → '/' ∉ nodeID →
      (appendNode p nodeID).bind parent = Except.ok p) := by
  constructor
  · constructor
    · rintro ⟨e, he⟩
      by_cases h0 : nodeID = []
      · exact Or.inl h0
      · by_cases hc : '/' ∈ nodeID
        · exact Or.inr hc
        · simp [appendNode, h0, hc] at he
    · rintro (h0 | hc)
      · exact ⟨.invalidNodeID, by simp [appendNode, h0]⟩
      · by_cases h0 : nodeID = []
        · exact ⟨.invalidNodeID, by simp [appendNode, h0]⟩
        · exact ⟨.sepInNodeID, by simp [appendNode, h0, hc]⟩
  · intro h0 hc
    have happ : appendNode p nodeID = Except.ok (trimSuffixSep p ++ '/' :: nodeID) := by
      simp [appendNode, h0, hc]
    rw [happ]
    show parent (trimSuffixSep p ++ '/' :: nodeID) = Except.ok p
    by_cases hr : p = rootPath
    · subst hr
      show parent ('/' :: nodeID) = Except.ok rootPath
      have hnr : isRoot ('/' :: nodeID) = false := by
        rw [isRoot_eq_false_iff]
        intro hx
        exact h0 (by injection hx)
      have hsp : splitFirstSep (('/' :: nodeID).reverse) = some (nodeID.reverse, []) := by
        rw [List.reverse_cons]
        exact splitFirstSep_append _ _ (by simpa using hc)
      simp only [parent, hnr, Bool.false_eq_true, if_false, hsp, List.reverse_nil, reduceIte]
    · have hts : trimSuffixSep p = p :=
        trimSuffixSep_eq_self p (validatePath_no_trailing_sep p hp hr)
      rw [hts]
      have hpne : p ≠ [] := by
        intro hx; subst hx; simp [validatePath] at hp
      have hn0 : 0 < nodeID.length := List.length_pos.mpr h0
      have hnr : isRoot (p ++ '/' :: nodeID) = false := by
        rw [isRoot_eq_false_iff]
        intro hx
        have hlen := congrArg List.length hx
        simp only [List.length_append, List.length_cons, rootPath,
          List.length_singleton, List.length_nil] at hlen
        omega
      have hsp : splitFirstSep ((p ++ '/' :: nodeID).reverse) =
          some (nodeID.reverse, p.reverse) := by
        rw [show (p ++ '/' :: nodeID).reverse = nodeID.reverse ++ '/' :: p.reverse by
          simp [List.reverse_append, List.reverse_cons, List.append_assoc]]
        exact splitFirstSep_append _ _ (by simpa using hc)
      have hrr : p.reverse.reverse = p := List.reverse_reverse p
      have hrne : p.reverse.reverse ≠ [] := by rw [hrr]; exact hpne
      simp only [parent, hnr, Bool.false_eq_true, if_false, hsp, hrr, if_neg hpne]

/-- C9: `Contains` is a strict ancestor test: no path contains itself;
for every non-root path containing a separator, its `Parent` contains it;
root contains every non-root path and no non-root path contains root;
and for non-root, non-empty `p`, `Contains(p, sub)` holds exactly when
`sub` is `p` followed by a separator and a remainder. -/
theorem contains_is_strict_ancestor_test (p sub : MPath) :
    (contains p p = false) ∧
    ('/' ∈ p → p ≠ rootPath → ∃ q, parent p = Except.ok q ∧ contains q p = true) ∧
    (isRoot p = false → contains rootPath p = true) ∧
    (isRoot p = false → contains p rootPath = false) ∧
    (isRoot p = false → p ≠ [] →
      (contains p sub = true ↔ ∃ t, p ++ '/' :: t = sub)) := by
  have hroot : isRoot rootPath = true := rfl
  refine ⟨?_, ?_, ?_, ?_, ?_⟩
  · by_cases hp : isRoot p
    · simp [contains, hp]
    · have hpre : List.isPrefixOf (p ++ ['/']) p = false := by
        rw [Bool.eq_false_iff]
        intro hx
        obtain ⟨t, ht⟩ := (isPrefixOfChar_iff _ _).mp hx
        have hlen := congrArg List.length ht
        simp only [List.length_append, List.length_singleton, List.length_nil] at hlen
        omega
      simp [contains, hp, hpre]
  · intro hmem hne
    have hrev : '/' ∈ p.reverse := List.mem_reverse.mpr hmem
    obtain ⟨x, y, hxy⟩ := splitFirstSep_isSome p.reverse hrev
    obtain ⟨hl, hx⟩ := splitFirstSep_eq_some p.reverse x y hxy
    have hpdec : p = y.reverse ++ '/' :: x.reverse := by
      have h2 := congrArg List.reverse hl
      simpa [List.reverse_append, List.reverse_cons, List.append_assoc] using h2
    have hnr : isRoot p = false := (isRoot_eq_false_iff p).mpr hne
    by_cases hy : y.reverse = []
    · refine ⟨rootPath, ?_, ?_⟩
      · simp only [parent, hnr, Bool.false_eq_true, if_false, hxy, hy, reduceIte]
      · simp [contains, hroot, hnr]
    · refine ⟨y.reverse, ?_, ?_⟩
      · simp only [parent, hnr, Bool.false_eq_true, if_false, hxy, if_neg hy]
      · have hpre : List.isPrefixOf (y.reverse ++ ['/']) p = true := by
          rw [isPrefixOfChar_iff]
          exact ⟨x.reverse, by simp [hpdec, List.append_assoc]⟩
        by_cases hyr : isRoot y.reverse
        · simp [contains, hyr, hnr]
        · simp [contains, hyr, hnr, hpre]
  · intro hnr
    simp [contains, hroot, hnr]
  · intro hnr
    simp [contains, hroot, hnr]
  · intro hnr hne
    by_cases hs : isRoot sub
    · have hsub : sub = rootPath := by simpa [isRoot] using hs
      subst hsub
      have hfalse : contains p rootPath = false := by
        simp [contains, hnr, hroot]
      rw [hfalse]
      simp only [Bool.false_eq_true, false_iff, not_exists]
      intro t hx
      have hlen := congrArg List.length hx
      simp only [List.length_append, List.length_cons, rootPath,
        List.length_singleton, List.length_nil] at hlen
      have hp0 : 0 < p.length := List.length_pos.mpr hne
      omega
    · simp only [contains, hnr, Bool.false_eq_true, if_false, hs, isPrefixOfChar_iff]
      constructor
      · rintro ⟨t, ht⟩; exact ⟨t, by simpa [List.append_assoc] using ht⟩
      · rintro ⟨t, ht⟩; exact ⟨t, by simpa [List.append_assoc] using ht⟩

/-- Witness for C8 at `p = "/a"`, segment `"b"`. -/
theorem appendNode_parent_inverse_witness :
    validatePath ['/', 'a'] = true ∧
    (appendNode ['/', 'a'] ['b']).bind parent = Except.ok ['/', 'a'] :=
  ⟨by rfl, (appendNode_parent_inverse ['/', 'a'] ['b'] (by rfl)).2
    (by decide) (by decide)⟩

/-- Witness for C9 at `p = "/a/b"`, `sub = "/a/b/c"`. -/
theorem contains_is_strict_ancestor_test_witness :
    contains ['/', 'a', '/', 'b'] ['/', 'a', '/', 'b'] = false ∧
    (∃ q, parent ['/', 'a', '/', 'b'] = Except.ok q ∧
      contains q ['/', 'a', '/', 'b'] = true) ∧
    contains rootPath ['/', 'a', '/', 'b'] = true ∧
    contains ['/', 'a', '/', 'b'] rootPath = false ∧
    (contains ['/', 'a', '/', 'b'] ['/', 'a', '/', 'b', '/', 'c'] = true ↔
      ∃ t, ['/', 'a', '/', 'b'] ++ '/' :: t = ['/', 'a', '/', 'b', '/', 'c']) :=
  ⟨(contains_is_strict_ancestor_test ['/', 'a', '/', 'b'] rootPath).1,
   (contains_is_strict_ancestor_test ['/', 'a', '/', 'b'] rootPath).2.1
     (by decide) (by decide),
   (contains_is_strict_ancestor_test ['/', 'a', '/', 'b'] rootPath).2.2.1 (by rfl),
   (contains_is_strict_ancestor_test ['/', 'a', '/', 'b'] rootPath).2.2.2.1 (by rfl),
   (contains_is_strict_ancestor_test ['/', 'a', '/', 'b']
      ['/', 'a', '/', 'b', '/', 'c']).2.2.2.2 (by rfl) (by decide)⟩


/-- C1 (code_bug evidence): the ParentID linkage invariant fails on both
mutation paths the claim names.  (i) `CreateNode` with parent path `/`
yields a node whose Path is not root but whose ParentID is nil — the Go
code only fills ParentID when the parent path is non-root, so it never
references the tenant's root node.  (ii) A successful `MoveNode` of `/m`
under `/p/q` stores `['p']` — the *new parent's own* ParentID
(`newParentID = newParent.ParentID` in query.go) — instead of the new
parent's Code `['q']`. -/
theorem createNode_and_moveNode_break_parentID_invariant :
    (createNode [nodeR] "child" rootPath tT tT "o" "u" ['n'] =
      Except.ok (childUnderRoot, [nodeR, childUnderRoot])) ∧
    childUnderRoot.parentID = none ∧ isRoot childUnderRoot.path = false ∧
    (moveNode db4 ['/', 'm'] nodeQ.path tT tT =
      Except.ok [nodeR, nodeP, nodeQ, movedM]) ∧
    movedM.parentID = some nodeP.code ∧ movedM.parentID ≠ some nodeQ.code :=
  ⟨by rfl, by rfl, by rfl, by rfl, by rfl, by decide⟩

/-- C2 (counterexample): a self-move is *not* rejected.  `Contains` is
strict, so `Contains("/a", "/a")` is false and `MoveNode("/a", "/a")`
runs to completion instead of failing with `InvalidMove`, rewriting `/a`
to `/a/a` and `/a/c` to `/a/a/c`. -/
theorem moveNode_self_move_not_rejected :
    contains ['/', 'a'] ['/', 'a'] = false ∧
    moveNode db3 ['/', 'a'] ['/', 'a'] tT tT =
      Except.ok [nodeR, selfMovedA, selfMovedC] :=
  ⟨by rfl, by rfl⟩

/-- C3 (code_bug evidence): for `p = "/a/b/c"` the claimed boundary cases
hold (negative depth, excessive depth, depth 0, depth = Depth(p)), but
the first-d-segments case is wrong: depth 1 returns `/` instead of `/a`
and depth 2 returns the invalid path `//a` instead of `/a/b`, because
`GetNodeIDs` keeps the empty segment before the leading separator. -/
theorem getAncestorAtDepth_returns_wrong_prefixes :
    getAncestorAtDepth ['/', 'a', '/', 'b', '/', 'c'] (-1) = Except.error Err.negativeDepth ∧
    getAncestorAtDepth ['/', 'a', '/', 'b', '/', 'c'] 4 = Except.error Err.depthExceedsPath ∧
    getAncestorAtDepth ['/', 'a', '/', 'b', '/', 'c'] 0 = Except.ok rootPath ∧
    getAncestorAtDepth ['/', 'a', '/', 'b', '/', 'c'] 3 =
      Except.ok ['/', 'a', '/', 'b', '/', 'c'] ∧
    getAncestorAtDepth ['/', 'a', '/', 'b', '/', 'c'] 1 = Except.ok ['/'] ∧
    (['/'] : MPath) ≠ ['/', 'a'] ∧
    getAncestorAtDepth ['/', 'a', '/', 'b', '/', 'c'] 2 = Except.ok ['/', '/', 'a'] ∧
    (['/', '/', 'a'] : MPath) ≠ ['/', 'a', '/', 'b'] ∧
    validatePath ['/', '/', 'a'] = false :=
  ⟨by rfl, by rfl, by rfl, by rfl, by rfl, by decide, by rfl, by decide, by rfl⟩

/-- C4 (code_bug evidence): `Segments` is empty for root, but for the
path `/a` — built by a single `AppendSegment` from root — it returns
`["", "a"]`: a leading empty pseudo-segment precedes the appended
identifier, so the length is `Depth(p) + 1`, not `Depth(p)`. -/
theorem getNodeIDs_keeps_leading_empty_segment :
    getNodeIDs rootPath = [] ∧
    appendNode rootPath ['a'] = Except.ok ['/', 'a'] ∧
    getNodeIDs ['/', 'a'] = [[], ['a']] ∧
    getNodeIDs ['/', 'a'] ≠ [['a']] ∧
    (getNodeIDs ['/', 'a']).length = 2 ∧
    depth ['/', 'a'] = 1 :=
  ⟨by rfl, by rfl, by rfl, by decide, by rfl, by rfl⟩

/-- C2 (amended): whenever both `path` and `newParentPath` resolve in the
tenant and `Contains(path, newParentPath)` holds — the new parent is a
*strict* descendant of the moved node — `MoveNode` fails with
`InvalidMove`, and since the failure precedes both updates the store is
unchanged (the transaction rolls back).  A self-move
(`newParentPath = path`) is *not* caught by this check, because
`Contains` is strict; see the counterexample. -/
theorem moveNode_rejects_move_under_strict_descendant
    (db : DB) (node np : TreeNode) (nodePath newParentPath : MPath) (tid tty : String)
    (hfind : getNodeByPath db nodePath tid tty = some node)
    (hpfind : getNodeByPath db newParentPath tid tty = some np)
    (hc : contains nodePath newParentPath = true) :
    moveNode db nodePath newParentPath tid tty = Except.error Err.invalidMove := by
  have hnr : isRoot newParentPath = false := contains_ne_root _ _ hc
  simp only [moveNode, hfind, hnr, Bool.false_eq_true, if_false, hpfind, hc, reduceIte]

/-- Witness for C2: moving `/a` under its strict descendant `/a/c` in the
tree {/, /a, /a/c} fails with `InvalidMove`. -/
theorem moveNode_rejects_move_under_strict_descendant_witness :
    getNodeByPath db3 ['/', 'a'] tT tT = some nodeA ∧
    getNodeByPath db3 ['/', 'a', '/', 'c'] tT tT = some nodeC ∧
    contains ['/', 'a'] ['/', 'a', '/', 'c'] = true ∧
    moveNode db3 ['/', 'a'] ['/', 'a', '/', 'c'] tT tT =
      Except.error Err.invalidMove :=
  ⟨by rfl, by rfl, by rfl,
   moveNode_rejects_move_under_strict_descendant db3 nodeA nodeC
     ['/', 'a'] ['/', 'a', '/', 'c'] tT tT (by rfl) (by rfl) (by rfl)⟩

/-- C5: a successful `MoveNode` is a pure prefix rewrite.  With a
single-tenant store, a resolving non-root source path free of SQL
wildcards, a resolving non-root target parent that is not inside the
moved subtree, and a well-formed moved code, the move succeeds and for
every row: a row whose path was the source path or lay strictly under it
gets the source prefix replaced by the new path
(`AppendSegment(newParentPath, code)`), and every other row's path is
untouched.  Atomicity is inherent to the embedding: on any error the
whole store is returned unchanged. -/
theorem moveNode_rewrites_subtree_paths
    (db : DB) (node np : TreeNode) (nodePath newParentPath : MPath) (tid tty : String)
    (htenant : ∀ n ∈ db, tenantMatch n tid tty = true)
    (hfind : getNodeByPath db nodePath tid tty = some node)
    (hv : validatePath nodePath = true) (hnroot : isRoot nodePath = false)
    (hw1 : '%' ∉ nodePath) (hw2 : '_' ∉ nodePath)
    (hpnroot : isRoot newParentPath = false)
    (hpfind : getNodeByPath db newParentPath tid tty = some np)
    (hnc : contains nodePath newParentPath = false)
    (hc1 : node.code ≠ []) (hc2 : '/' ∉ node.code) :
    ∃ db', moveNode db nodePath newParentPath tid tty = Except.ok db' ∧
      List.Forall₂ (fun n n' =>
        ((n.path = nodePath ∨ ∃ t, nodePath ++ '/' :: t = n.path) →
          n'.path = (trimSuffixSep newParentPath ++ '/' :: node.code) ++
            n.path.drop nodePath.length) ∧
        (¬ (n.path = nodePath ∨ ∃ t, nodePath ++ '/' :: t = n.path) →
          n'.path = n.path)) db db' := by
  have happ : appendNode newParentPath node.code =
      Except.ok (trimSuffixSep newParentPath ++ '/' :: node.code) := by
    simp [appendNode, hc1, hc2]
  refine ⟨moveApplyUpdates db nodePath
      (trimSuffixSep newParentPath ++ '/' :: node.code) node.code np.parentID tid tty,
    ?_, ?_⟩
  · simp only [moveNode, hfind, hpnroot, Bool.false_eq_true, if_false, hpfind, hnc,
      reduceIte, happ]
  · unfold moveApplyUpdates
    rw [List.map_map]
    rw [List.forall₂_map_right_iff, List.forall₂_same]
    intro n hn
    have htm : tenantMatch n tid tty = true := htenant n hn
    have hlikeIff := likeMatch_strict_desc nodePath n.path hv hnroot hw1 hw2
    simp only [Function.comp_apply, moveParentRow_path]
    by_cases hin : n.path = nodePath ∨ ∃ t, nodePath ++ '/' :: t = n.path
    · have hcond : (tenantMatch n tid tty &&
          (n.path == nodePath ||
            likeMatch (getPathPrefixPattern nodePath) n.path)) = true := by
        rcases hin with h | h
        · simp [htm, h]
        · simp [htm, hlikeIff.mpr h]
      constructor
      · intro _
        unfold moveRewriteRow
        rw [if_pos hcond]
      · intro hcontra; exact absurd hin hcontra
    · have hne : (n.path == nodePath) = false := by
        rw [beq_eq_false_iff_ne]
        intro hx
        exact hin (Or.inl hx)
      have hnl : likeMatch (getPathPrefixPattern nodePath) n.path = false := by
        rw [Bool.eq_false_iff]
        intro hx
        exact hin (Or.inr (hlikeIff.mp hx))
      constructor
      · intro hcontra; exact absurd hcontra hin
      · intro _
        unfold moveRewriteRow
        rw [if_neg (by simp [hne, hnl])]

/-- Witness for C5: moving `/a/n` (with descendant `/a/n/x`) under `/b`
in the five-node tree; `/a/n` becomes `/b/n`, `/a/n/x` becomes `/b/n/x`,
and `/`, `/a`, `/b` stay as they are. -/
theorem moveNode_rewrites_subtree_paths_witness :
    ∃ db', moveNode db5 ['/', 'a', '/', 'n'] ['/', 'b'] tT tT = Except.ok db' ∧
      List.Forall₂ (fun n n' =>
        ((n.path = ['/', 'a', '/', 'n'] ∨
            ∃ t, ['/', 'a', '/', 'n'] ++ '/' :: t = n.path) →
          n'.path = (trimSuffixSep ['/', 'b'] ++ '/' :: nodeN5.code) ++
            n.path.drop (['/', 'a', '/', 'n'] : MPath).length) ∧
        (¬ (n.path = ['/', 'a', '/', 'n'] ∨
            ∃ t, ['/', 'a', '/', 'n'] ++ '/' :: t = n.path) →
          n'.path = n.path)) db5 db' :=
  moveNode_rewrites_subtree_paths db5 nodeN5 nodeB5
    ['/', 'a', '/', 'n'] ['/', 'b'] tT tT
    (by decide) (by rfl) (by rfl) (by rfl) (by decide) (by decide)
    (by rfl) (by rfl) (by rfl) (by decide) (by decide)

/-- C6: `DeleteNode` without cascade on a node that has at least one
strict descendant (a row whose path extends the node's path by a
separator, counted through the `PrefixPattern` LIKE condition) fails with
`HasDescendants`; the failure precedes the delete, so no row is removed
(the transaction rolls back with the store unchanged). -/
theorem deleteNode_noncascade_fails_with_descendants
    (db : DB) (node m : TreeNode) (nodePath : MPath) (tid tty : String)
    (hfind : getNodeByPath db nodePath tid tty = some node)
    (hv : validatePath nodePath = true) (hnr : isRoot nodePath = false)
    (hw1 : '%' ∉ nodePath) (hw2 : '_' ∉ nodePath)
    (hm : m ∈ db) (hmt : tenantMatch m tid tty = true)
    (hdesc : ∃ t, nodePath ++ '/' :: t = m.path) :
    deleteNode db nodePath tid tty false = Except.error Err.hasDescendants := by
  have hlike : likeMatch (getPathPrefixPattern nodePath) m.path = true :=
    (likeMatch_strict_desc nodePath m.path hv hnr hw1 hw2).mpr hdesc
  have hne : (m.path == nodePath) = false := by
    rw [beq_eq_false_iff_ne]
    obtain ⟨t, ht⟩ := hdesc
    intro hx
    rw [hx] at ht
    have hlen := congrArg List.length ht
    simp only [List.length_append, List.length_cons] at hlen
    omega
  have hcount : strictDescCount db nodePath tid tty > 0 := by
    unfold strictDescCount
    have hmf : m ∈ db.filter (fun n => tenantMatch n tid tty &&
        likeMatch (getPathPrefixPattern nodePath) n.path && !(n.path == nodePath)) :=
      List.mem_filter.mpr ⟨hm, by simp [hmt, hlike, hne]⟩
    exact List.length_pos.mpr (List.ne_nil_of_mem hmf)
  simp only [deleteNode, hfind, Bool.not_false, reduceIte]
  rw [if_pos hcount]

/-- Witness for C6: deleting `/a` (which has the child `/a/c`) without
cascade fails with `HasDescendants`. -/
theorem deleteNode_noncascade_fails_with_descendants_witness :
    nodeC ∈ db3 ∧
    deleteNode db3 ['/', 'a'] tT tT false = Except.error Err.hasDescendants :=
  ⟨by decide,
   deleteNode_noncascade_fails_with_descendants db3 nodeA nodeC ['/', 'a'] tT tT
     (by rfl) (by rfl) (by rfl) (by decide) (by decide) (by decide) (by rfl)
     ⟨['c'], by rfl⟩⟩

/-- C7: `BatchCreateNodes` resolves all non-root parent paths against one
batched read; when some entry's non-root parent path matches no
tenant-scoped row, the whole batch aborts with `ParentNotFound` — the
building loop errors before the single bulk insert, so no entry is
persisted (the transaction rolls back with the store unchanged). -/
theorem batchCreateNodes_aborts_on_unresolved_parent
    (db : DB) (items : List BatchItem) (tid tty : String) (ids : Nat → Seg)
    (bad : BatchItem)
    (hids : ∀ i, ids i ≠ [] ∧ '/' ∉ ids i)
    (hbad : bad ∈ items) (hbnr : isRoot bad.parentPath = false)
    (hnores : ∀ n ∈ db, tenantMatch n tid tty = true → n.path ≠ bad.parentPath) :
    batchCreateNodes db items tid tty ids = Except.error Err.parentNotFound := by
  have hlook : parentMapLookup (batchParents db items tid tty) bad.parentPath = none := by
    unfold parentMapLookup
    rw [Option.map_eq_none']
    rw [List.find?_eq_none]
    intro n hn
    have hn2 : n ∈ batchParents db items tid tty := List.mem_reverse.mp hn
    obtain ⟨hndb, hcond⟩ := List.mem_filter.mp hn2
    rw [Bool.and_eq_true] at hcond
    intro hbeq
    have hpath : n.path = bad.parentPath := by simpa using hbeq
    exact hnores n hndb hcond.1 hpath
  have main : ∀ (l : List BatchItem) (i : Nat), bad ∈ l →
      buildBatch (batchParents db items tid tty) tid tty ids l i =
        Except.error Err.parentNotFound := by
    intro l
    induction l with
    | nil => intro i h; cases h
    | cons it rest ih =>
      intro i h
      rcases List.mem_cons.mp h with hhead | hrest
      · subst hhead
        simp only [buildBatch, hbnr, Bool.false_eq_true, if_false, hlook, reduceIte]
      · obtain ⟨hne, hnc⟩ := hids i
        have happ : appendNode it.parentPath (ids i) =
            Except.ok (trimSuffixSep it.parentPath ++ '/' :: ids i) := by
          simp [appendNode, hne, hnc]
        by_cases hroot : isRoot it.parentPath
        · simp only [buildBatch, hroot, reduceIte, happ, ih (i + 1) hrest]
        · cases hl2 : parentMapLookup (batchParents db items tid tty) it.parentPath with
          | none =>
            simp only [buildBatch, hroot, Bool.false_eq_true, if_false, hl2, reduceIte]
          | some c =>
            simp only [buildBatch, hroot, Bool.false_eq_true, if_false, hl2, reduceIte,
              happ, ih (i + 1) hrest]
  simp only [batchCreateNodes, main items 0 hbad]

/-- Witness for C7: batch-creating two nodes under the nonexistent parent
path `/z` fails with `ParentNotFound` (and hence persists neither). -/
theorem batchCreateNodes_aborts_on_unresolved_parent_witness :
    itemZ1 ∈ [itemZ1, itemZ2] ∧
    batchCreateNodes db3 [itemZ1, itemZ2] tT tT (fun _ => ['z']) =
      Except.error Err.parentNotFound :=
  ⟨by decide,
   batchCreateNodes_aborts_on_unresolved_parent db3 [itemZ1, itemZ2] tT tT
     (fun _ => ['z']) itemZ1 (fun _ => ⟨by simp, by simp⟩) (by decide)
     (by rfl) (by decide)⟩

/-- C10: `UpdateNode` strips the protected keys (id, created_at,
updated_at, deleted_at, parent_id, code, path, tenant_id, tenant_type)
from the caller's map before applying it, so whatever the map contains,
every row keeps its identity, linkage, path, tenant scope and timestamps;
only the remaining columns (name, owner fields) can change. -/
theorem updateNode_preserves_structural_fields
    (db : DB) (c : Seg) (tid tty : String) (updates : List (String × Val))
    (node : TreeNode) (hfind : getNodeByCode db c tid tty = Except.ok node) :
    ∃ db', updateNode db c tid tty updates = Except.ok db' ∧
      List.Forall₂ structuralFieldsEq db db' := by
  refine ⟨db.map (fun n =>
      if tenantMatch n tid tty && codeFieldCond c n
      then (updates.filter (fun kv => !(protectedKeys.contains kv.1))).foldl
             (fun m kv => applyUpd m kv.1 kv.2) n
      else n), ?_, ?_⟩
  · simp only [updateNode, hfind]
  rw [List.forall₂_map_right_iff]
  rw [List.forall₂_same]
  intro n hn
  by_cases hcond : (tenantMatch n tid tty && codeFieldCond c n) = true
  · rw [if_pos hcond]
    apply foldl_applyUpd_preserves
    intro kv hkv
    have := (List.mem_filter.mp hkv).2
    simp only [Bool.not_eq_true'] at this
    intro hmem
    have h2 : protectedKeys.elem kv.1 = false := this
    rw [(List.elem_iff).mpr hmem] at h2
    cases h2
  · rw [if_neg hcond]
    exact structuralFieldsEq_refl n

/-- Witness for C10: an update that tries to overwrite `path` (and also
sets `name`) leaves id/code/path/parent_id/tenant/timestamps intact. -/
theorem updateNode_preserves_structural_fields_witness :
    ∃ db', updateNode [nodeU] ulidCode tT tT
        [("path", Val.s "/evil"), ("name", Val.s "after")] = Except.ok db' ∧
      List.Forall₂ structuralFieldsEq [nodeU] db' :=
  updateNode_preserves_structural_fields [nodeU] ulidCode tT tT
    [("path", Val.s "/evil"), ("name", Val.s "after")] nodeU (by rfl)

end Materialized
